import Mathlib

/-!
Shallow embedding of the sberauto ingestion pipeline
(`modules/data_pipeline.py`, `modules/json_to_db.py`,
`modules/create_tables.py`) and proofs about its reconciliation and
idempotent-load logic.

Conventions of the embedding:
* Calendar dates (`datetime.date` values) are lexicographically ordered
  `(year, month, day)` triples.
* A raw (pre-parse) date field is `RawDate`: either a well-formed
  `YYYY-MM-DD` text carrying the date it denotes, or malformed text.
  `datetime.strptime` raises on malformed input (`strptime` returns
  `Except`); `pd.to_datetime(errors := coerce)` maps malformed input to
  `NaT` (`coerceDate` returns `Option`).
* The relational store is the pair of the `sessions` and `hits` tables,
  each a list of rows in physical order.  The SQL upsert statements of the
  source are embedded as list operations: `ON CONFLICT DO NOTHING` is
  `insertSessionIfAbsent`, `ON CONFLICT (session_id) DO UPDATE SET ...` is
  `upsertSession`, and `ON CONFLICT (session_id, hit_number) DO UPDATE SET
  hit_date = EXCLUDED.hit_date, event_label = EXCLUDED.event_label` is
  `upsertHit`.
-/

namespace Sberauto

/-- A calendar date, as produced by parsing a `YYYY-MM-DD` text. -/
structure Date where
  year : Nat
  month : Nat
  day : Nat
deriving DecidableEq, Repr

/-- Calendar order on dates: lexicographic on (year, month, day). -/
def Date.le (a b : Date) : Bool :=
  a.year < b.year ||
    (a.year == b.year &&
      (a.month < b.month || (a.month == b.month && a.day ≤ b.day)))

/-- A raw date field before parsing: either text in canonical `YYYY-MM-DD`
form, carrying the date it denotes, or malformed text. -/
inductive RawDate where
  | valid (d : Date)
  | malformed
deriving DecidableEq, Repr

/-- Embedding of `datetime.strptime(s, %Y-%m-%d).date()`: returns the date or raises
`ValueError` (modelled as `Except.error`). -/
def strptime : RawDate → Except Unit Date
  | .valid d => .ok d
  | .malformed => .error ()

/-- Embedding of `pd.to_datetime(s, errors=coerce)`: returns the date or `NaT`
(modelled as `none`). -/
def coerceDate : RawDate → Option Date
  | .valid d => some d
  | .malformed => none

/-- A row of the `sessions` table (`create_tables.py`, lines 21-32). -/
structure SessionRow where
  session_id : String
  utm_source : String
  utm_medium : String
  visit_date : Date
  visit_number : Int
  device_os : String
  device_brand : String
  device_model : String
deriving DecidableEq, Repr

/-- A row of the `hits` table (`create_tables.py`, lines 34-45). -/
structure HitRow where
  session_id : String
  hit_date : Date
  hit_number : Int
  event_label : String
deriving DecidableEq, Repr

/-- The relational store: the `sessions` and `hits` tables. -/
structure Store where
  sessions : List SessionRow
  hits : List HitRow
deriving DecidableEq, Repr

/-- The query `SELECT session_id FROM sessions` (the set of primary keys present). -/
def sessionIds (s : Store) : List String :=
  s.sessions.map (·.session_id)

/-- Whether two hit rows share the composite primary key
(`session_id`, `hit_number`). -/
def sameHitKey (a b : HitRow) : Bool :=
  a.session_id == b.session_id && a.hit_number == b.hit_number

/-- The statement `INSERT INTO sessions ... ON CONFLICT (session_id) DO NOTHING`
for a single row: a no-op when the key is present, else an append. -/
def insertSessionIfAbsent (s : Store) (r : SessionRow) : Store :=
  if s.sessions.any (fun x => x.session_id == r.session_id) then s
  else { s with sessions := s.sessions ++ [r] }

/-- Bulk insert-if-absent of session rows, in list order (the embedding of
`bulk_insert` with the `DO NOTHING` sessions query). -/
def insertSessionsIfAbsent (s : Store) (rs : List SessionRow) : Store :=
  rs.foldl insertSessionIfAbsent s

/-- The statement `INSERT INTO sessions ... ON CONFLICT (session_id) DO UPDATE SET
utm_source = EXCLUDED.utm_source, ...` (`json_to_db.py`, lines 92-108)
for a single row: on key conflict every non-key column is overwritten. -/
def upsertSession (s : Store) (r : SessionRow) : Store :=
  if s.sessions.any (fun x => x.session_id == r.session_id) then
    { s with sessions := s.sessions.map (fun x =>
        if x.session_id == r.session_id then
          { x with utm_source := r.utm_source, utm_medium := r.utm_medium,
                   visit_date := r.visit_date, visit_number := r.visit_number,
                   device_os := r.device_os, device_brand := r.device_brand,
                   device_model := r.device_model }
        else x) }
  else { s with sessions := s.sessions ++ [r] }

/-- Bulk insert-or-overwrite of session rows, in list order. -/
def upsertSessions (s : Store) (rs : List SessionRow) : Store :=
  rs.foldl upsertSession s

/-- The statement `INSERT INTO hits ... ON CONFLICT (session_id, hit_number) DO UPDATE SET
hit_date = EXCLUDED.hit_date, event_label = EXCLUDED.event_label`
(`data_pipeline.py`, lines 245-252 and `json_to_db.py`, lines 121-129)
for a single row. -/
def upsertHit (s : Store) (h : HitRow) : Store :=
  if s.hits.any (fun x => sameHitKey x h) then
    { s with hits := s.hits.map (fun x =>
        if sameHitKey x h then
          { x with hit_date := h.hit_date, event_label := h.event_label }
        else x) }
  else { s with hits := s.hits ++ [h] }

/-- Bulk insert-or-overwrite of hit rows, in list order. -/
def upsertHits (s : Store) (hs : List HitRow) : Store :=
  hs.foldl upsertHit s

/-! ### pandas helpers used by `data_pipeline.py` -/

/-- Embedding of `df_hits.drop_duplicates(subset=[session_id, hit_number])`
(`data_pipeline.py`, line 234).  pandas keeps the FIRST occurrence of each
key (the default `keep=first`); `seen` accumulates keys already kept. -/
def dedupHitsAux (seen : List (String × Int)) : List HitRow → List HitRow
  | [] => []
  | h :: t =>
    if (h.session_id, h.hit_number) ∈ seen then dedupHitsAux seen t
    else h :: dedupHitsAux ((h.session_id, h.hit_number) :: seen) t

/-- Key-based deduplication of a hit batch, keeping the first occurrence. -/
def dedupHitsFirst (hs : List HitRow) : List HitRow :=
  dedupHitsAux [] hs

/-- A Python `set` of strings built by insertion order: duplicates are
dropped, the first occurrence of each element is kept. -/
def dedupStringsAux (seen : List String) : List String → List String
  | [] => []
  | x :: t =>
    if x ∈ seen then dedupStringsAux seen t
    else x :: dedupStringsAux (x :: seen) t

/-- Insertion sort step used to embed pandas quantile computation. -/
def sortedInsert (x : ℚ) : List ℚ → List ℚ
  | [] => [x]
  | y :: t => if x ≤ y then x :: y :: t else y :: sortedInsert x t

/-- Ascending sort of the column values. -/
def sortColumn (l : List ℚ) : List ℚ :=
  l.foldr sortedInsert []

/-- Embedding of `Series.quantile(q)` with the pandas default linear interpolation:
on the ascending sort `s` of the `n` values, the quantile sits at position
`q * (n - 1)`; with `i` its floor and `frac` its fractional part, the
result is `s[i] + frac * (s[i+1] - s[i])`.  (pandas yields `NaN` on an
empty column; the empty case is unreachable in the claims below and is
mapped to `0`.) -/
def quantile (l : List ℚ) (q : ℚ) : ℚ :=
  match sortColumn l with
  | [] => 0
  | y :: t =>
    let s := y :: t
    let n : ℚ := (s.length : ℚ)
    let pos : ℚ := q * (n - 1)
    let i : Nat := pos.floor.toNat
    let frac : ℚ := pos - (i : ℚ)
    let a := s.getD i y
    let b := s.getD (i + 1) a
    a + frac * (b - a)

/-- Embedding of `remove_outliers(df, column)` (`data_pipeline.py`, lines 73-79): with
`q_one` the 0.25-quantile and `q_three` the 0.75-quantile of the column
over the current batch, keep exactly the rows whose value lies in the
closed interval from `q_one - 1.5 * iqr` to `q_three + 1.5 * iqr`.
The data frame is a list of rows `df`; `column` projects the filtered
numeric column out of a row. -/
def remove_outliers {α : Type} (df : List α) (column : α → ℚ) : List α :=
  let q_one := quantile (df.map column) (1 / 4)
  let q_three := quantile (df.map column) (3 / 4)
  let iqr := q_three - q_one
  df.filter (fun r =>
    decide (q_one - 3 / 2 * iqr ≤ column r) && decide (column r ≤ q_three + 3 / 2 * iqr))

/-! ### The snapshot pipeline: the database portion of `insert_data`
(`data_pipeline.py`, lines 171-278).  `df_sessions` and `df_hits` are the
cleaned frames returned by `load_data`. -/

/-- Fold computing the minimum of a nonempty date list under calendar
order. -/
def minDateFold (d : Date) (ds : List Date) : Date :=
  ds.foldl (fun a b => if Date.le b a then b else a) d

/-- Embedding of `df_hits.groupby(session_id)[hit_date].min().to_dict()` looked up
at `session_id` (`data_pipeline.py`, line 216): the minimum `hit_date`
over the hits of that session in the batch, `none` when the session has
no hit in the batch (a dict miss, `dict.get` returning `None`). -/
def minHitDate (df_hits : List HitRow) (session_id : String) : Option Date :=
  match (df_hits.filter (fun h => h.session_id == session_id)).map (·.hit_date) with
  | [] => none
  | d :: ds => some (minDateFold d ds)

/-- The placeholder session synthesized for a missing `session_id`
(`data_pipeline.py`, lines 218-227).  A `minHitDate` miss would make
Python pass `None` for the `NOT NULL` column `visit_date`; it cannot
happen for ids drawn from `df_hits`, and is mapped to an arbitrary date. -/
def mkPlaceholder (df_hits : List HitRow) (session_id : String) : SessionRow :=
  { session_id := session_id
    utm_source := "unknown"
    utm_medium := "unknown"
    visit_date := (minHitDate df_hits session_id).getD ⟨0, 0, 0⟩
    visit_number := 1
    device_os := "unknown"
    device_brand := "unknown"
    device_model := "unknown" }

/-- Embedding of `missing_sessions = set(df_hits[session_id]) - existing_sessions`
(`data_pipeline.py`, line 210), as the deduplicated list of referenced
ids not among `existing`. -/
def missingSessionIds (existing : List String) (df_hits : List HitRow) : List String :=
  (dedupStringsAux [] (df_hits.map (·.session_id))).filter (fun sid => !existing.contains sid)

/-- The database portion of `insert_data` (`data_pipeline.py`, lines
182-255), applied to the cleaned frames `df_sessions` and `df_hits`:
1. bulk insert the batch sessions with `ON CONFLICT DO NOTHING` and
   commit;
2. re-query the stored session ids and compute the ids referenced by
   `df_hits` but absent from the store;
3. synthesize one placeholder per missing id and bulk insert them with
   `ON CONFLICT DO NOTHING`, committing;
4. drop duplicate hits by (`session_id`, `hit_number`), keeping the first,
   and bulk upsert the remainder with `ON CONFLICT ... DO UPDATE`. -/
def insertDataDB (store : Store) (df_sessions : List SessionRow)
    (df_hits : List HitRow) : Store :=
  let store1 := insertSessionsIfAbsent store df_sessions
  let missing := missingSessionIds (sessionIds store1) df_hits
  let store2 := insertSessionsIfAbsent store1 (missing.map (mkPlaceholder df_hits))
  upsertHits store2 (dedupHitsFirst df_hits)

/-- Outcome of reading the snapshot pickle files in `load_data`
(`data_pipeline.py`, lines 97-108): either a file was missing (or
unreadable), or both frames were read and cleaned into `df_sessions` and
`df_hits`.  The cleaning stages between the read and the insert are a
deterministic function of the files and are not re-modelled here. -/
inductive SnapshotInput where
  | missingFile
  | frames (df_sessions : List SessionRow) (df_hits : List HitRow)

/-- The value of the `load_data()` call: on a missing input file the
error is logged and the bare `return` yields `None` (`data_pipeline.py`,
lines 100-102) despite the declared return type
`tuple[DataFrame, DataFrame]`. -/
def loadDataResult : SnapshotInput → Option (List SessionRow × List HitRow)
  | .missingFile => none
  | .frames df_sessions df_hits => some (df_sessions, df_hits)

/-- Embedding of `insert_data` (`data_pipeline.py`, lines 171-278).  The first
statement, `df_sessions, df_hits = load_data()`, unpacks the result of
`load_data`; when that result is `None` the unpacking raises `TypeError`
(modelled as `Except.error`) before the `try` block is entered, so the
exception propagates out of `insert_data` and the store is never
touched. -/
def insert_data (inp : SnapshotInput) (store : Store) : Except Unit Store :=
  match loadDataResult inp with
  | none => .error ()
  | some (df_sessions, df_hits) => .ok (insertDataDB store df_sessions df_hits)

/-- The date-normalization stage of `load_data` (`data_pipeline.py`,
lines 116-122) on one frame: the date column is parsed with
`pd.to_datetime(errors=coerce)` and the rows whose parse produced `NaT`
are filtered out.  `dateField` projects the raw date column of a row. -/
def dropBadDates {α : Type} (rows : List α) (dateField : α → RawDate) : List α :=
  rows.filter (fun r => (coerceDate (dateField r)).isSome)

/-! ### The incremental pipeline (`json_to_db.py`) -/

/-- A raw session record of a `ga_sessions` JSON file.  `none` in an
optional field models a missing key (or an explicit JSON `null`, which
`dict.get` equally maps to `None`). -/
structure RawSession where
  session_id : String
  utm_source : Option String
  utm_medium : Option String
  visit_date : RawDate
  visit_number : Int
  device_os : Option String
  device_brand : Option String
  device_model : Option String
deriving DecidableEq, Repr

/-- A raw hit record of a `ga_hits` JSON file. -/
structure RawHit where
  session_id : String
  hit_date : RawDate
  hit_number : Int
  event_label : String
deriving DecidableEq, Repr

/-- The device-field cleaning of `process_sessions_data` (`json_to_db.py`,
lines 39-42): the value of `session.get(field)` is kept unless it is
missing, `None` or the literal `NaN`, in which case `unknown` is used. -/
def cleanDevice : Option String → String
  | none => "unknown"
  | some v => if v == "NaN" then ("unknown") else v

/-- The body of the record loop of `process_sessions_data` (`json_to_db.py`,
lines 33-48): `visit_date` is parsed by a bare `datetime.strptime` whose
`ValueError` on malformed input propagates. -/
def processSession (s : RawSession) : Except Unit SessionRow := do
  let vd ← strptime s.visit_date
  pure { session_id := s.session_id
         utm_source := s.utm_source.getD ("unknown")
         utm_medium := s.utm_medium.getD ("unknown")
         visit_date := vd
         visit_number := s.visit_number
         device_os := s.device_os.getD ("unknown")
         device_brand := cleanDevice s.device_brand
         device_model := cleanDevice s.device_model }

/-- Processing of the flattened record list of a sessions file, in order;
the first `strptime` failure aborts the whole call. -/
def processSessionRecords : List RawSession → Except Unit (List SessionRow)
  | [] => .ok []
  | s :: t => do
    let r ← processSession s
    let rs ← processSessionRecords t
    pure (r :: rs)

/-- The `missing_sessions_ids` set built by `process_sessions_data`: the
`session_id` of every processed record, inserted into a set. -/
def sessionIdSet (rows : List SessionRow) : List String :=
  dedupStringsAux [] (rows.map (·.session_id))

/-- Embedding of `process_sessions_data(data)` (`json_to_db.py`, lines 26-52): the JSON
object is a mapping whose values are lists of session records; the loop
ranges over all records of all groups, builds one output tuple per record,
and collects the ids. -/
def process_sessions_data (data : List (List RawSession)) :
    Except Unit (List SessionRow × List String) := do
  let rows ← processSessionRecords data.flatten
  pure (rows, sessionIdSet rows)

/-- The body of the record loop of `process_hits_data` (`json_to_db.py`,
lines 59-66): the date is parsed (bare `strptime`, raising on malformed
input) before the membership filter, and the hit is kept only when its
`session_id` is among `valid_sessions_ids`. -/
def processHitRecords (valid_sessions_ids : List String) :
    List RawHit → Except Unit (List HitRow)
  | [] => .ok []
  | h :: t => do
    let d ← strptime h.hit_date
    let rest ← processHitRecords valid_sessions_ids t
    pure (if valid_sessions_ids.contains h.session_id then
            ⟨h.session_id, d, h.hit_number, h.event_label⟩ :: rest
          else rest)

/-- Embedding of `process_hits_data(data, valid_sessions_ids)` (`json_to_db.py`,
lines 55-68). -/
def process_hits_data (data : List (List RawHit)) (valid_sessions_ids : List String) :
    Except Unit (List HitRow) :=
  processHitRecords valid_sessions_ids data.flatten

/-- One JSON batch file, classified by its name (the substring
`ga_sessions` vs `ga_hits`), carrying its decoded content. -/
inductive JsonFile where
  | sessionsFile (data : List (List RawSession))
  | hitsFile (data : List (List RawHit))

/-- Processing of one JSON file inside `process_and_load_json_data`
(`json_to_db.py`, lines 80-131): a sessions file is processed and bulk
upserted (`ON CONFLICT DO UPDATE` on every non-key column) then committed;
a hits file first re-queries the stored session ids, filters its hits to
those whose session exists in the store, bulk upserts them and commits.
All parsing happens before any insert for the file, so a parse error
leaves the store untouched for that file. -/
def processJsonFile (store : Store) : JsonFile → Except Unit Store
  | .sessionsFile data => do
    let pr ← process_sessions_data data
    pure (upsertSessions store pr.1)
  | .hitsFile data => do
    let hd ← process_hits_data data (sessionIds store)
    pure (upsertHits store hd)

/-- Embedding of `process_and_load_json_data` (`json_to_db.py`, lines 71-141): the files
are processed in order; the writes of each file are committed before the next
file.  An exception reaches the top-level handler, which rolls back the
(empty) in-flight transaction and returns, so the store keeps the state
committed so far. -/
def process_and_load_json_data (store : Store) : List JsonFile → Store
  | [] => store
  | f :: fs =>
    match processJsonFile store f with
    | .ok s1 => process_and_load_json_data s1 fs
    | .error _ => store

/-! ### The store invariant -/

/-- Referential completeness: every hit row in the store has a session row
with the matching `session_id`. -/
def refComplete (s : Store) : Prop :=
  ∀ h ∈ s.hits, h.session_id ∈ sessionIds s

/-- The composite primary key of a hit row. -/
def hitKey (h : HitRow) : String × Int :=
  (h.session_id, h.hit_number)

/-- The store already carries, at the key of `h`, exactly the non-key
column values of `h`: a row with that key exists and every such row agrees
with `h` on `hit_date` and `event_label`. -/
def hitOk (t : Store) (h : HitRow) : Prop :=
  (∃ x ∈ t.hits, sameHitKey x h = true) ∧
    ∀ x ∈ t.hits, sameHitKey x h = true →
      x.hit_date = h.hit_date ∧ x.event_label = h.event_label

/-! ### Concrete rows used as test inputs -/

/-- A concrete cleaned hit row referencing session `"sa"`. -/
def c1hit : HitRow :=
  { session_id := "sa", hit_date := ⟨2024, 2, 1⟩, hit_number := 1, event_label := "click" }

/-- The two hits of the gap-synthesis example of the specification:
session `"s1"` with `hit_date` values 2024-01-05 and 2024-01-03. -/
def gapHit1 : HitRow :=
  { session_id := "s1", hit_date := ⟨2024, 1, 5⟩, hit_number := 1, event_label := "e1" }

/-- The second hit of the gap-synthesis example. -/
def gapHit2 : HitRow :=
  { session_id := "s1", hit_date := ⟨2024, 1, 3⟩, hit_number := 2, event_label := "e2" }

/-- A concrete cleaned session row for the idempotence test. -/
def c3session : SessionRow :=
  { session_id := "sb", utm_source := "google", utm_medium := "organic",
    visit_date := ⟨2024, 3, 1⟩, visit_number := 2,
    device_os := "android", device_brand := "samsung", device_model := "galaxy" }

/-- A concrete cleaned hit row referencing `c3session`. -/
def c3hit : HitRow :=
  { session_id := "sb", hit_date := ⟨2024, 3, 2⟩, hit_number := 1, event_label := "view" }

/-- A stored session row for the conflict-policy test. -/
def c4session : SessionRow :=
  { session_id := "sc", utm_source := "yandex", utm_medium := "cpc",
    visit_date := ⟨2024, 4, 1⟩, visit_number := 1,
    device_os := "ios", device_brand := "apple", device_model := "iphone" }

/-- A stored hit row with `event_label = "old"`. -/
def c4storedHit : HitRow :=
  { session_id := "sc", hit_date := ⟨2024, 4, 1⟩, hit_number := 1, event_label := "old" }

/-- An incoming snapshot hit with the same key as `c4storedHit` and
`event_label = "new"`. -/
def c4incomingHit : HitRow :=
  { session_id := "sc", hit_date := ⟨2024, 4, 2⟩, hit_number := 1, event_label := "new" }

/-- A stored session row for the duplicate-collapse test. -/
def c5session : SessionRow :=
  { session_id := "sd", utm_source := "vk", utm_medium := "smm",
    visit_date := ⟨2024, 5, 1⟩, visit_number := 1,
    device_os := "android", device_brand := "xiaomi", device_model := "redmi" }

/-- A batch hit with `event_label = "a"`. -/
def c5hitA : HitRow :=
  { session_id := "sd", hit_date := ⟨2024, 5, 1⟩, hit_number := 1, event_label := "a" }

/-- A batch hit with the same (`session_id`, `hit_number`) key as `c5hitA`
but `event_label = "b"`. -/
def c5hitB : HitRow :=
  { session_id := "sd", hit_date := ⟨2024, 5, 1⟩, hit_number := 1, event_label := "b" }

/-- A raw JSON session record whose `visit_date` parses. -/
def c7goodSession : RawSession :=
  { session_id := "se", utm_source := some ("google"), utm_medium := some ("cpc"),
    visit_date := .valid ⟨2024, 6, 1⟩, visit_number := 1,
    device_os := some ("ios"), device_brand := none, device_model := some ("NaN") }

/-- A raw JSON session record whose `visit_date` does not parse. -/
def c7badSession : RawSession :=
  { session_id := "sf", utm_source := some ("email"), utm_medium := some ("email"),
    visit_date := .malformed, visit_number := 1,
    device_os := some ("android"), device_brand := some ("honor"), device_model := some ("x8") }

/-- A raw JSON hit whose `session_id` exists neither in the batch nor in
the store. -/
def c8orphanHit : RawHit :=
  { session_id := "sx", hit_date := .valid ⟨2024, 7, 1⟩, hit_number := 1,
    event_label := "click" }

/-- A stored session row for the incremental-load test. -/
def c8session : SessionRow :=
  { session_id := "sg", utm_source := "tg", utm_medium := "push",
    visit_date := ⟨2024, 7, 1⟩, visit_number := 3,
    device_os := "android", device_brand := "huawei", device_model := "p30" }

/-- A raw JSON hit whose `session_id` matches `c8session`. -/
def c8matchedHit : RawHit :=
  { session_id := "sg", hit_date := .valid ⟨2024, 7, 2⟩, hit_number := 2,
    event_label := "view" }

/-- A well-formed raw JSON session record with a `"NaN"` device model. -/
def c10record : RawSession :=
  { session_id := "sh", utm_source := none, utm_medium := some ("banner"),
    visit_date := .valid ⟨2024, 8, 1⟩, visit_number := 1,
    device_os := none, device_brand := some ("NaN"), device_model := none }

/-! ### Basic lemmas about the calendar order -/

theorem Date.le_refl (a : Date) : Date.le a a = true := by
  simp [Date.le]

theorem Date.le_total (a b : Date) : Date.le a b = true ∨ Date.le b a = true := by
  simp only [Date.le, Bool.or_eq_true, Bool.and_eq_true, decide_eq_true_eq, beq_iff_eq]
  omega

theorem Date.le_trans {a b c : Date} (h1 : Date.le a b = true)
    (h2 : Date.le b c = true) : Date.le a c = true := by
  simp only [Date.le, Bool.or_eq_true, Bool.and_eq_true, decide_eq_true_eq, beq_iff_eq] at *
  omega

/-! ### Basic lemmas about the loader operations -/

theorem sameHitKey_iff {a b : HitRow} : sameHitKey a b = true ↔ hitKey a = hitKey b := by
  simp [sameHitKey, hitKey, Bool.and_eq_true, Prod.ext_iff]

theorem sameHitKey_self (h : HitRow) : sameHitKey h h = true := by
  simp [sameHitKey]

theorem sessions_upsertHit (s : Store) (h : HitRow) :
    (upsertHit s h).sessions = s.sessions := by
  unfold upsertHit
  split <;> rfl

theorem sessions_upsertHits (s : Store) (hs : List HitRow) :
    (upsertHits s hs).sessions = s.sessions := by
  induction hs generalizing s with
  | nil => rfl
  | cons h t ih => rw [upsertHits, List.foldl_cons, ← upsertHits, ih, sessions_upsertHit]

theorem hits_insertSessionIfAbsent (s : Store) (r : SessionRow) :
    (insertSessionIfAbsent s r).hits = s.hits := by
  unfold insertSessionIfAbsent
  split <;> rfl

theorem hits_insertSessionsIfAbsent (s : Store) (rs : List SessionRow) :
    (insertSessionsIfAbsent s rs).hits = s.hits := by
  induction rs generalizing s with
  | nil => rfl
  | cons r t ih =>
    rw [insertSessionsIfAbsent, List.foldl_cons, ← insertSessionsIfAbsent, ih,
      hits_insertSessionIfAbsent]

theorem hits_upsertSession (s : Store) (r : SessionRow) :
    (upsertSession s r).hits = s.hits := by
  unfold upsertSession
  split <;> rfl

theorem hits_upsertSessions (s : Store) (rs : List SessionRow) :
    (upsertSessions s rs).hits = s.hits := by
  induction rs generalizing s with
  | nil => rfl
  | cons r t ih =>
    rw [upsertSessions, List.foldl_cons, ← upsertSessions, ih, hits_upsertSession]

theorem sessionIds_insertSessionIfAbsent_mono {s : Store} {a : String} (r : SessionRow)
    (h : a ∈ sessionIds s) : a ∈ sessionIds (insertSessionIfAbsent s r) := by
  unfold insertSessionIfAbsent
  split
  · exact h
  · simpa [sessionIds] using Or.inl (by simpa [sessionIds] using h)

theorem mem_sessionIds_insertSessionIfAbsent_self (s : Store) (r : SessionRow) :
    r.session_id ∈ sessionIds (insertSessionIfAbsent s r) := by
  unfold insertSessionIfAbsent
  split
  · rename_i hany
    rw [List.any_eq_true] at hany
    obtain ⟨x, hx, hbeq⟩ := hany
    rw [beq_iff_eq] at hbeq
    exact hbeq ▸ List.mem_map_of_mem (·.session_id) hx
  · simp [sessionIds]

theorem sessionIds_insertSessionsIfAbsent_mono {s : Store} {a : String}
    (rs : List SessionRow) (h : a ∈ sessionIds s) :
    a ∈ sessionIds (insertSessionsIfAbsent s rs) := by
  induction rs generalizing s with
  | nil => exact h
  | cons r t ih =>
    rw [insertSessionsIfAbsent, List.foldl_cons, ← insertSessionsIfAbsent]
    exact ih (sessionIds_insertSessionIfAbsent_mono r h)

theorem mem_sessionIds_insertSessionsIfAbsent {s : Store} {r : SessionRow}
    {rs : List SessionRow} (h : r ∈ rs) :
    r.session_id ∈ sessionIds (insertSessionsIfAbsent s rs) := by
  induction rs generalizing s with
  | nil => cases h
  | cons r0 t ih =>
    rw [insertSessionsIfAbsent, List.foldl_cons, ← insertSessionsIfAbsent]
    rcases List.mem_cons.mp h with h1 | h1
    · subst h1
      exact sessionIds_insertSessionsIfAbsent_mono t
        (mem_sessionIds_insertSessionIfAbsent_self s r)
    · exact ih h1

theorem insertSessionIfAbsent_eq_self {s : Store} {r : SessionRow}
    (h : r.session_id ∈ sessionIds s) : insertSessionIfAbsent s r = s := by
  unfold insertSessionIfAbsent
  rw [if_pos]
  rw [List.any_eq_true]
  obtain ⟨x, hx, hid⟩ := List.mem_map.mp h
  exact ⟨x, hx, by rw [beq_iff_eq, hid]⟩

theorem insertSessionsIfAbsent_eq_self {s : Store} {rs : List SessionRow}
    (h : ∀ r ∈ rs, r.session_id ∈ sessionIds s) : insertSessionsIfAbsent s rs = s := by
  induction rs with
  | nil => rfl
  | cons r t ih =>
    rw [insertSessionsIfAbsent, List.foldl_cons,
      insertSessionIfAbsent_eq_self (h r (List.mem_cons_self r t)), ← insertSessionsIfAbsent]
    exact ih fun x hx => h x (List.mem_cons_of_mem r hx)

theorem sessions_insertSessionIfAbsent_append (s : Store) (r : SessionRow) :
    ∃ tail, (insertSessionIfAbsent s r).sessions = s.sessions ++ tail := by
  unfold insertSessionIfAbsent
  split
  · exact ⟨[], by simp⟩
  · exact ⟨[r], rfl⟩

theorem sessions_insertSessionsIfAbsent_append (s : Store) (rs : List SessionRow) :
    ∃ tail, (insertSessionsIfAbsent s rs).sessions = s.sessions ++ tail := by
  induction rs generalizing s with
  | nil => exact ⟨[], by simp [insertSessionsIfAbsent]⟩
  | cons r t ih =>
    rw [insertSessionsIfAbsent, List.foldl_cons, ← insertSessionsIfAbsent]
    obtain ⟨tail, htail⟩ := ih (insertSessionIfAbsent s r)
    obtain ⟨tail0, htail0⟩ := sessions_insertSessionIfAbsent_append s r
    exact ⟨tail0 ++ tail, by rw [htail, htail0, List.append_assoc]⟩

theorem sessionIds_upsertSession_mono {s : Store} {a : String} (r : SessionRow)
    (h : a ∈ sessionIds s) : a ∈ sessionIds (upsertSession s r) := by
  unfold upsertSession
  split
  · obtain ⟨x, hx, hid⟩ := List.mem_map.mp h
    refine List.mem_map.mpr ⟨_, List.mem_map_of_mem _ hx, ?_⟩
    split <;> simpa using hid
  · simpa [sessionIds] using Or.inl (by simpa [sessionIds] using h)

theorem sessionIds_upsertSessions_mono {s : Store} {a : String} (rs : List SessionRow)
    (h : a ∈ sessionIds s) : a ∈ sessionIds (upsertSessions s rs) := by
  induction rs generalizing s with
  | nil => exact h
  | cons r t ih =>
    rw [upsertSessions, List.foldl_cons, ← upsertSessions]
    exact ih (sessionIds_upsertSession_mono r h)

theorem session_id_mem_of_mem_upsertHit {s : Store} {h x : HitRow}
    (hx : x ∈ (upsertHit s h).hits) :
    x.session_id ∈ s.hits.map (·.session_id) ∨ x.session_id = h.session_id := by
  unfold upsertHit at hx
  split at hx
  · simp only [List.mem_map] at hx
    obtain ⟨y, hy, hxy⟩ := hx
    left
    refine List.mem_map.mpr ⟨y, hy, ?_⟩
    subst hxy
    split <;> rfl
  · simp only [List.mem_append, List.mem_singleton] at hx
    rcases hx with hx | hx
    · exact Or.inl (List.mem_map_of_mem _ hx)
    · exact Or.inr (hx ▸ rfl)

theorem session_id_mem_upsertHit_hits {s : Store} {h : HitRow} {a : String}
    (ha : a ∈ (upsertHit s h).hits.map (·.session_id)) :
    a ∈ s.hits.map (·.session_id) ∨ a = h.session_id := by
  obtain ⟨y, hy, hya⟩ := List.mem_map.mp ha
  rcases session_id_mem_of_mem_upsertHit hy with h1 | h1
  · exact Or.inl (hya ▸ h1)
  · exact Or.inr (hya ▸ h1)

theorem session_id_mem_of_mem_upsertHits {s : Store} {hs : List HitRow} {x : HitRow}
    (hx : x ∈ (upsertHits s hs).hits) :
    x.session_id ∈ s.hits.map (·.session_id) ∨ x.session_id ∈ hs.map (·.session_id) := by
  induction hs generalizing s with
  | nil => exact Or.inl (List.mem_map_of_mem _ hx)
  | cons h t ih =>
    rw [upsertHits, List.foldl_cons, ← upsertHits] at hx
    rcases ih hx with hmem | hmem
    · rcases session_id_mem_upsertHit_hits hmem with h1 | h1
      · exact Or.inl h1
      · exact Or.inr (by simp [h1])
    · exact Or.inr (List.mem_cons_of_mem _ hmem)

/-! ### Deduplication lemmas -/

theorem mem_dedupStringsAux {x : String} :
    ∀ (seen l : List String), x ∈ dedupStringsAux seen l ↔ x ∈ l ∧ x ∉ seen := by
  intro seen l
  induction l generalizing seen with
  | nil => simp [dedupStringsAux]
  | cons y t ih =>
    unfold dedupStringsAux
    split
    · rename_i hy
      rw [ih]
      constructor
      · rintro ⟨hxt, hxs⟩
        exact ⟨List.mem_cons_of_mem y hxt, hxs⟩
      · rintro ⟨hxl, hxs⟩
        rcases List.mem_cons.mp hxl with h1 | h1
        · exact absurd (h1 ▸ hy) hxs
        · exact ⟨h1, hxs⟩
    · rename_i hy
      constructor
      · intro hx
        rcases List.mem_cons.mp hx with h1 | h1
        · exact ⟨h1 ▸ List.mem_cons_self y t, h1 ▸ hy⟩
        · obtain ⟨hxt, hxs⟩ := (ih (y :: seen)).mp h1
          exact ⟨List.mem_cons_of_mem y hxt,
            fun hmem => hxs (List.mem_cons_of_mem y hmem)⟩
      · rintro ⟨hxl, hxs⟩
        rcases List.mem_cons.mp hxl with h1 | h1
        · exact h1 ▸ List.mem_cons_self y _
        · by_cases hxy : x = y
          · exact hxy ▸ List.mem_cons_self y _
          · exact List.mem_cons_of_mem y ((ih (y :: seen)).mpr
              ⟨h1, fun hmem => (List.mem_cons.mp hmem).elim hxy hxs⟩)

theorem nodup_dedupStringsAux : ∀ (seen l : List String), (dedupStringsAux seen l).Nodup := by
  intro seen l
  induction l generalizing seen with
  | nil => simp [dedupStringsAux]
  | cons y t ih =>
    unfold dedupStringsAux
    split
    · exact ih seen
    · refine List.nodup_cons.mpr ⟨?_, ih (y :: seen)⟩
      intro hy
      exact ((mem_dedupStringsAux (y :: seen) t).mp hy).2 (List.mem_cons_self y seen)

theorem mem_of_mem_dedupHitsAux {h : HitRow} :
    ∀ (seen : List (String × Int)) (l : List HitRow), h ∈ dedupHitsAux seen l → h ∈ l := by
  intro seen l
  induction l generalizing seen with
  | nil => simp [dedupHitsAux]
  | cons y t ih =>
    unfold dedupHitsAux
    split
    · exact fun hx => List.mem_cons_of_mem y (ih seen hx)
    · intro hx
      rcases List.mem_cons.mp hx with h1 | h1
      · exact h1 ▸ List.mem_cons_self y t
      · exact List.mem_cons_of_mem y (ih _ h1)

theorem key_not_seen_of_mem_dedupHitsAux {h : HitRow} :
    ∀ (seen : List (String × Int)) (l : List HitRow),
      h ∈ dedupHitsAux seen l → hitKey h ∉ seen := by
  intro seen l
  induction l generalizing seen with
  | nil => simp [dedupHitsAux]
  | cons y t ih =>
    unfold dedupHitsAux
    split
    · exact fun hx => ih seen hx
    · rename_i hseen
      intro hx
      rcases List.mem_cons.mp hx with h1 | h1
      · subst h1
        simpa [hitKey] using hseen
      · exact fun hmem => ih _ h1 (List.mem_cons_of_mem _ hmem)

theorem nodup_keys_dedupHitsAux :
    ∀ (seen : List (String × Int)) (l : List HitRow),
      ((dedupHitsAux seen l).map hitKey).Nodup := by
  intro seen l
  induction l generalizing seen with
  | nil => simp [dedupHitsAux]
  | cons y t ih =>
    unfold dedupHitsAux
    split
    · exact ih seen
    · rw [List.map_cons]
      refine List.nodup_cons.mpr ⟨?_, ih _⟩
      intro hy
      obtain ⟨z, hz, hzy⟩ := List.mem_map.mp hy
      have hns := key_not_seen_of_mem_dedupHitsAux _ _ hz
      rw [hzy] at hns
      exact hns (by simp [hitKey])

theorem nodup_keys_dedupHitsFirst (l : List HitRow) :
    ((dedupHitsFirst l).map hitKey).Nodup :=
  nodup_keys_dedupHitsAux [] l

theorem mem_of_mem_dedupHitsFirst {h : HitRow} {l : List HitRow}
    (hx : h ∈ dedupHitsFirst l) : h ∈ l :=
  mem_of_mem_dedupHitsAux [] l hx

theorem map_eq_self_of_eq {α : Type} {l : List α} {f : α → α}
    (h : ∀ a ∈ l, f a = a) : l.map f = l := by
  induction l with
  | nil => rfl
  | cons a t ih =>
    rw [List.map_cons, h a (List.mem_cons_self a t),
      ih fun x hx => h x (List.mem_cons_of_mem a hx)]

/-! ### Idempotence machinery for the hits upsert -/

theorem upsertHit_eq_self {t : Store} {h : HitRow} (hOk : hitOk t h) :
    upsertHit t h = t := by
  obtain ⟨⟨x0, hx0, hkey0⟩, hall⟩ := hOk
  unfold upsertHit
  rw [if_pos (List.any_eq_true.mpr ⟨x0, hx0, hkey0⟩)]
  have hmap : t.hits.map (fun x =>
      if sameHitKey x h then
        { x with hit_date := h.hit_date, event_label := h.event_label }
      else x) = t.hits := by
    refine map_eq_self_of_eq fun x hx => ?_
    by_cases hk : sameHitKey x h = true
    · obtain ⟨hd, he⟩ := hall x hx hk
      rw [if_pos hk, ← hd, ← he]
    · rw [if_neg hk]
  rw [hmap]

theorem hitOk_upsertHit_self (t : Store) (h : HitRow) : hitOk (upsertHit t h) h := by
  unfold upsertHit
  split
  · rename_i hany
    obtain ⟨x0, hx0, hkey0⟩ := List.any_eq_true.mp hany
    constructor
    · refine ⟨_, List.mem_map_of_mem _ hx0, ?_⟩
      rw [if_pos hkey0]
      simpa [sameHitKey] using hkey0
    · intro x hx hk
      obtain ⟨y, hy, hyx⟩ := List.mem_map.mp hx
      subst hyx
      by_cases hky : sameHitKey y h = true
      · rw [if_pos hky]
        exact ⟨rfl, rfl⟩
      · rw [if_neg hky] at hk ⊢
        exact absurd hk hky
  · constructor
    · exact ⟨h, by simp, sameHitKey_self h⟩
    · intro x hx hk
      rcases List.mem_append.mp hx with h1 | h1
      · rename_i hany
        exact absurd (List.any_eq_true.mpr ⟨x, h1, hk⟩) (by simpa using hany)
      · rw [List.mem_singleton.mp h1]
        exact ⟨rfl, rfl⟩

theorem hitOk_upsertHit_of_ne {t : Store} {h h2 : HitRow} (hOk : hitOk t h)
    (hne : hitKey h2 ≠ hitKey h) : hitOk (upsertHit t h2) h := by
  obtain ⟨⟨x0, hx0, hkey0⟩, hall⟩ := hOk
  unfold upsertHit
  split
  · constructor
    · have hk0 : sameHitKey x0 h2 = false := by
        rw [Bool.eq_false_iff]
        intro hc
        exact hne ((sameHitKey_iff.mp hc).symm.trans (sameHitKey_iff.mp hkey0))
      refine ⟨x0, List.mem_map.mpr ⟨x0, hx0, ?_⟩, hkey0⟩
      rw [hk0]
      simp
    · intro x hx hk
      obtain ⟨y, hy, hyx⟩ := List.mem_map.mp hx
      subst hyx
      by_cases hky : sameHitKey y h2 = true
      · rw [if_pos hky] at hk
        have hk2 : sameHitKey y h = true := by simpa [sameHitKey] using hk
        exact absurd ((sameHitKey_iff.mp hky).symm.trans (sameHitKey_iff.mp hk2)) hne
      · rw [if_neg hky] at hk ⊢
        exact hall y hy hk
  · constructor
    · exact ⟨x0, List.mem_append_left _ hx0, hkey0⟩
    · intro x hx hk
      rcases List.mem_append.mp hx with h1 | h1
      · exact hall x h1 hk
      · rw [List.mem_singleton.mp h1] at hk
        exact absurd (sameHitKey_iff.mp hk) hne

theorem hitOk_upsertHits_of_ne {t : Store} {h : HitRow} {hs : List HitRow}
    (hOk : hitOk t h) (hne : ∀ h2 ∈ hs, hitKey h2 ≠ hitKey h) :
    hitOk (upsertHits t hs) h := by
  induction hs generalizing t with
  | nil => exact hOk
  | cons h2 rest ih =>
    rw [upsertHits, List.foldl_cons, ← upsertHits]
    exact ih (hitOk_upsertHit_of_ne hOk (hne h2 (List.mem_cons_self h2 rest)))
      fun x hx => hne x (List.mem_cons_of_mem h2 hx)

theorem hitOk_upsertHits_mem {t : Store} {hs : List HitRow} {h : HitRow}
    (hkeys : (hs.map hitKey).Nodup) (hmem : h ∈ hs) : hitOk (upsertHits t hs) h := by
  induction hs generalizing t with
  | nil => cases hmem
  | cons h0 rest ih =>
    rw [upsertHits, List.foldl_cons, ← upsertHits]
    rw [List.map_cons, List.nodup_cons] at hkeys
    rcases List.mem_cons.mp hmem with h1 | h1
    · subst h1
      refine hitOk_upsertHits_of_ne (hitOk_upsertHit_self t h) fun h2 hx hc => ?_
      exact hkeys.1 (hc ▸ List.mem_map_of_mem hitKey hx)
    · exact ih hkeys.2 h1

theorem upsertHits_eq_self {t : Store} {hs : List HitRow}
    (hall : ∀ h ∈ hs, hitOk t h) : upsertHits t hs = t := by
  induction hs with
  | nil => rfl
  | cons h rest ih =>
    rw [upsertHits, List.foldl_cons, upsertHit_eq_self (hall h (List.mem_cons_self h rest)),
      ← upsertHits]
    exact ih fun x hx => hall x (List.mem_cons_of_mem h hx)

theorem upsertHits_idem (t : Store) (hs : List HitRow)
    (hkeys : (hs.map hitKey).Nodup) :
    upsertHits (upsertHits t hs) hs = upsertHits t hs :=
  upsertHits_eq_self fun _ hmem => hitOk_upsertHits_mem hkeys hmem

/-! ### Minimum-date lemmas for gap synthesis -/

theorem minDateFold_mem (d : Date) (ds : List Date) : minDateFold d ds ∈ d :: ds := by
  induction ds generalizing d with
  | nil => exact List.mem_singleton.mpr rfl
  | cons b t ih =>
    rw [minDateFold, List.foldl_cons, ← minDateFold]
    by_cases hc : Date.le b d = true
    · rw [if_pos hc]
      exact List.mem_cons_of_mem d (ih b)
    · rw [if_neg hc]
      rcases List.mem_cons.mp (ih d) with h1 | h1
      · rw [h1]
        exact List.mem_cons_self d (b :: t)
      · exact List.mem_cons_of_mem d (List.mem_cons_of_mem b h1)

theorem minDateFold_le (d : Date) (ds : List Date) :
    ∀ x ∈ d :: ds, Date.le (minDateFold d ds) x = true := by
  induction ds generalizing d with
  | nil =>
    intro x hx
    rw [List.mem_singleton.mp hx]
    exact Date.le_refl d
  | cons b t ih =>
    intro x hx
    rw [minDateFold, List.foldl_cons, ← minDateFold]
    by_cases hc : Date.le b d = true
    · rw [if_pos hc]
      rcases List.mem_cons.mp hx with h1 | h1
      · exact h1 ▸ Date.le_trans (ih b b (List.mem_cons_self b t)) hc
      · exact ih b x h1
    · rw [if_neg hc]
      have hdb : Date.le d b = true :=
        (Date.le_total b d).resolve_left hc
      rcases List.mem_cons.mp hx with h1 | h1
      · exact h1 ▸ ih d d (List.mem_cons_self d t)
      · rcases List.mem_cons.mp h1 with h2 | h2
        · exact h2 ▸ Date.le_trans (ih d d (List.mem_cons_self d t)) hdb
        · exact ih d x (List.mem_cons_of_mem d h2)

theorem minHitDate_spec {df_hits : List HitRow} {sid : String} {m : Date}
    (h : minHitDate df_hits sid = some m) :
    (∃ h0 ∈ df_hits, h0.session_id = sid ∧ h0.hit_date = m) ∧
      ∀ h0 ∈ df_hits, h0.session_id = sid → Date.le m h0.hit_date = true := by
  unfold minHitDate at h
  cases hfl : (df_hits.filter (fun x => x.session_id == sid)).map (·.hit_date) with
  | nil => rw [hfl] at h; cases h
  | cons d ds =>
    rw [hfl] at h
    have hm : m = minDateFold d ds := (Option.some.injEq _ _ ▸ h).symm
    constructor
    · have hmem : m ∈ d :: ds := hm ▸ minDateFold_mem d ds
      rw [← hfl] at hmem
      obtain ⟨h0, hh0, hdate⟩ := List.mem_map.mp hmem
      obtain ⟨hh0df, hh0sid⟩ := List.mem_filter.mp hh0
      exact ⟨h0, hh0df, beq_iff_eq.mp hh0sid, hdate⟩
    · intro h0 hh0 hsid
      have hmemd : h0.hit_date ∈ d :: ds := by
        rw [← hfl]
        exact List.mem_map_of_mem _ (List.mem_filter.mpr ⟨hh0, beq_iff_eq.mpr hsid⟩)
      exact hm ▸ minDateFold_le d ds h0.hit_date hmemd

theorem minHitDate_eq_some {df_hits : List HitRow} {sid : String}
    (hex : ∃ h0 ∈ df_hits, h0.session_id = sid) :
    ∃ m, minHitDate df_hits sid = some m := by
  obtain ⟨h0, hh0, hsid⟩ := hex
  have hmem : h0 ∈ df_hits.filter (fun x => x.session_id == sid) :=
    List.mem_filter.mpr ⟨hh0, beq_iff_eq.mpr hsid⟩
  unfold minHitDate
  cases hfl : (df_hits.filter (fun x => x.session_id == sid)).map (·.hit_date) with
  | nil =>
    rw [List.map_eq_nil_iff] at hfl
    rw [hfl] at hmem
    cases hmem
  | cons d ds => exact ⟨minDateFold d ds, rfl⟩

/-! ### Pipeline-level lemmas for the snapshot load -/

theorem mem_missingSessionIds {existing : List String} {df_hits : List HitRow}
    {sid : String} :
    sid ∈ missingSessionIds existing df_hits ↔
      sid ∈ df_hits.map (·.session_id) ∧ sid ∉ existing := by
  unfold missingSessionIds
  rw [List.mem_filter, mem_dedupStringsAux]
  simp

/-- Every `session_id` referenced by the cleaned hit batch is present in
the store at the moment the hits are loaded (after the batch sessions
commit and the gap-synthesis commit). -/
theorem hit_session_present (store : Store) (df_sessions : List SessionRow)
    (df_hits : List HitRow) {sid : String}
    (hsid : sid ∈ df_hits.map (·.session_id)) :
    sid ∈ sessionIds (insertSessionsIfAbsent (insertSessionsIfAbsent store df_sessions)
      ((missingSessionIds (sessionIds (insertSessionsIfAbsent store df_sessions)) df_hits).map
        (mkPlaceholder df_hits))) := by
  by_cases hin : sid ∈ sessionIds (insertSessionsIfAbsent store df_sessions)
  · exact sessionIds_insertSessionsIfAbsent_mono _ hin
  · have hmiss : sid ∈ missingSessionIds
        (sessionIds (insertSessionsIfAbsent store df_sessions)) df_hits :=
      mem_missingSessionIds.mpr ⟨hsid, hin⟩
    have hrow : (mkPlaceholder df_hits sid).session_id = sid := rfl
    exact hrow ▸ mem_sessionIds_insertSessionsIfAbsent (List.mem_map_of_mem _ hmiss)

/-! ### Lemmas about the incremental (JSON) processing -/

theorem cleanDevice_ne_NaN (o : Option String) : cleanDevice o ≠ "NaN" := by
  cases o with
  | none => simp [cleanDevice]
  | some v =>
    show (if (v == "NaN") = true then ("unknown") else v) ≠ "NaN"
    by_cases hv : (v == "NaN") = true
    · rw [if_pos hv]
      simp
    · rw [if_neg hv]
      exact fun hc => hv (beq_iff_eq.mpr hc)

theorem processHitRecords_ok_valid {valid : List String} {l : List RawHit}
    {hd : List HitRow} (h : processHitRecords valid l = .ok hd) :
    ∀ x ∈ hd, x.session_id ∈ valid := by
  induction l generalizing hd with
  | nil =>
    rw [processHitRecords] at h
    cases h
    simp
  | cons r t ih =>
    rw [processHitRecords] at h
    cases hsd : strptime r.hit_date with
    | error e =>
      rw [hsd] at h
      simp [Bind.bind, Except.bind] at h
    | ok d =>
      rw [hsd] at h
      cases hrest : processHitRecords valid t with
      | error e =>
        rw [hrest] at h
        simp [Bind.bind, Except.bind] at h
      | ok rest =>
        rw [hrest] at h
        simp only [Bind.bind, Except.bind, pure, Except.pure, Except.ok.injEq] at h
        intro x hx
        rw [← h] at hx
        by_cases hmem : valid.contains r.session_id = true
        · rw [if_pos hmem] at hx
          rcases List.mem_cons.mp hx with h1 | h1
          · rw [h1]
            simpa using hmem
          · exact ih hrest x h1
        · rw [if_neg hmem] at hx
          exact ih hrest x hx

theorem processSessionRecords_error_of_malformed {l : List RawSession}
    (hex : ∃ s ∈ l, s.visit_date = RawDate.malformed) :
    processSessionRecords l = .error () := by
  induction l with
  | nil => simp at hex
  | cons s t ih =>
    rw [processSessionRecords]
    by_cases hs : s.visit_date = RawDate.malformed
    · rw [processSession, hs]
      rfl
    · obtain ⟨s0, hs0, hmal⟩ := hex
      rcases List.mem_cons.mp hs0 with h1 | h1
      · exact absurd (h1 ▸ hmal) hs
      · cases hd : s.visit_date with
        | malformed => exact absurd hd hs
        | valid d =>
          rw [processSession, hd]
          rw [ih ⟨s0, h1, hmal⟩]
          rfl

theorem processSessionRecords_ok_spec {l : List RawSession}
    (hwf : ∀ s ∈ l, s.visit_date ≠ RawDate.malformed) :
    ∃ rows, processSessionRecords l = .ok rows ∧
      rows.length = l.length ∧
      rows.map (·.session_id) = l.map (·.session_id) ∧
      ∀ r ∈ rows, r.device_brand ≠ "NaN" ∧ r.device_model ≠ "NaN" := by
  induction l with
  | nil => exact ⟨[], rfl, rfl, rfl, by simp⟩
  | cons s t ih =>
    obtain ⟨rows, hrows, hlen, hids, hnan⟩ :=
      ih fun x hx => hwf x (List.mem_cons_of_mem s hx)
    cases hd : s.visit_date with
    | malformed => exact absurd hd (hwf s (List.mem_cons_self s t))
    | valid d =>
      refine ⟨{ session_id := s.session_id, utm_source := s.utm_source.getD ("unknown"),
                utm_medium := s.utm_medium.getD ("unknown"), visit_date := d,
                visit_number := s.visit_number, device_os := s.device_os.getD ("unknown"),
                device_brand := cleanDevice s.device_brand,
                device_model := cleanDevice s.device_model } :: rows, ?_, ?_, ?_, ?_⟩
      · rw [processSessionRecords, processSession, hd, hrows]
        rfl
      · simpa using hlen
      · simpa using hids
      · intro r hr
        rcases List.mem_cons.mp hr with h1 | h1
        · rw [h1]
          exact ⟨cleanDevice_ne_NaN s.device_brand, cleanDevice_ne_NaN s.device_model⟩
        · exact hnan r h1

/-! ### Referential completeness preservation -/

theorem refComplete_upsertSessions {store : Store} (rs : List SessionRow)
    (h : refComplete store) : refComplete (upsertSessions store rs) := by
  intro x hx
  rw [hits_upsertSessions] at hx
  exact sessionIds_upsertSessions_mono rs (h x hx)

theorem refComplete_upsertHits_valid {store : Store} {hd : List HitRow}
    (h : refComplete store) (hvalid : ∀ x ∈ hd, x.session_id ∈ sessionIds store) :
    refComplete (upsertHits store hd) := by
  intro x hx
  have hsid : sessionIds (upsertHits store hd) = sessionIds store := by
    unfold sessionIds
    rw [sessions_upsertHits]
  rw [hsid]
  rcases session_id_mem_of_mem_upsertHits hx with h1 | h1
  · obtain ⟨y, hy, hyid⟩ := List.mem_map.mp h1
    exact hyid ▸ h y hy
  · obtain ⟨y, hy, hyid⟩ := List.mem_map.mp h1
    exact hyid ▸ hvalid y hy

theorem refComplete_processJsonFile {store s1 : Store} {f : JsonFile}
    (h : refComplete store) (hok : processJsonFile store f = .ok s1) :
    refComplete s1 := by
  cases f with
  | sessionsFile data =>
    rw [processJsonFile] at hok
    cases hpr : process_sessions_data data with
    | error e => rw [hpr] at hok; simp [Bind.bind, Except.bind] at hok
    | ok pr =>
      rw [hpr] at hok
      simp only [Bind.bind, Except.bind, pure, Except.pure, Except.ok.injEq] at hok
      rw [← hok]
      exact refComplete_upsertSessions pr.1 h
  | hitsFile data =>
    rw [processJsonFile] at hok
    cases hpr : process_hits_data data (sessionIds store) with
    | error e => rw [hpr] at hok; simp [Bind.bind, Except.bind] at hok
    | ok hd =>
      rw [hpr] at hok
      simp only [Bind.bind, Except.bind, pure, Except.pure, Except.ok.injEq] at hok
      rw [← hok]
      exact refComplete_upsertHits_valid h (processHitRecords_ok_valid hpr)

theorem refComplete_process_and_load_json_data {store : Store} (files : List JsonFile)
    (h : refComplete store) : refComplete (process_and_load_json_data store files) := by
  induction files generalizing store with
  | nil => exact h
  | cons f fs ih =>
    rw [process_and_load_json_data]
    cases hok : processJsonFile store f with
    | error e => exact h
    | ok s1 => exact ih (refComplete_processJsonFile h hok)

/-! ### The snapshot load, unfolded -/

theorem insertDataDB_eq (store : Store) (df_sessions : List SessionRow)
    (df_hits : List HitRow) :
    insertDataDB store df_sessions df_hits =
      upsertHits
        (insertSessionsIfAbsent (insertSessionsIfAbsent store df_sessions)
          ((missingSessionIds (sessionIds (insertSessionsIfAbsent store df_sessions))
              df_hits).map (mkPlaceholder df_hits)))
        (dedupHitsFirst df_hits) := rfl

theorem sessionIds_insertDataDB_of_hit {store : Store} {df_sessions : List SessionRow}
    {df_hits : List HitRow} {sid : String} (hsid : sid ∈ df_hits.map (·.session_id)) :
    sid ∈ sessionIds (insertDataDB store df_sessions df_hits) := by
  rw [insertDataDB_eq]
  unfold sessionIds
  rw [sessions_upsertHits]
  exact hit_session_present store df_sessions df_hits hsid

theorem refComplete_insertDataDB (store : Store) (df_sessions : List SessionRow)
    (df_hits : List HitRow) (hrc : refComplete store) :
    refComplete (insertDataDB store df_sessions df_hits) := by
  rw [insertDataDB_eq]
  apply refComplete_upsertHits_valid
  · intro x hx
    rw [hits_insertSessionsIfAbsent, hits_insertSessionsIfAbsent] at hx
    exact sessionIds_insertSessionsIfAbsent_mono _
      (sessionIds_insertSessionsIfAbsent_mono _ (hrc x hx))
  · intro x hx
    exact hit_session_present store df_sessions df_hits
      (List.mem_map_of_mem _ (mem_of_mem_dedupHitsFirst hx))

/-! ### C1 -/

/-- C1 (confirmed).  Referential completeness: starting from any store in
which every hit has its session, (i) the snapshot load (`insertDataDB`,
the database stage of `insert_data` applied to any cleaned frames) yields
a store in which every hit has its session, (ii) the `session_id` of
every batch hit is present in the session table of the resulting store —
and since the hits upsert does not touch the session table, that is the
session set at the moment the hits are loaded — and (iii) any run of the
incremental orchestrator `process_and_load_json_data` preserves
referential completeness. -/
theorem referential_completeness (store : Store) (df_sessions : List SessionRow)
    (df_hits : List HitRow) (files : List JsonFile) (hrc : refComplete store) :
    refComplete (insertDataDB store df_sessions df_hits) ∧
      (∀ h ∈ df_hits, h.session_id ∈ sessionIds (insertDataDB store df_sessions df_hits)) ∧
      refComplete (process_and_load_json_data store files) :=
  ⟨refComplete_insertDataDB store df_sessions df_hits hrc,
   fun _ hmem => sessionIds_insertDataDB_of_hit (List.mem_map_of_mem _ hmem),
   refComplete_process_and_load_json_data files hrc⟩

/-- Witness for C1 at a concrete input: the empty store, an empty session
frame, the one-hit frame `[c1hit]` and no JSON files. -/
theorem referential_completeness_witness :
    refComplete (insertDataDB ⟨[], []⟩ [] [c1hit]) ∧
      (∀ h ∈ [c1hit], h.session_id ∈ sessionIds (insertDataDB ⟨[], []⟩ [] [c1hit])) ∧
      refComplete (process_and_load_json_data ⟨[], []⟩ []) :=
  referential_completeness ⟨[], []⟩ [] [c1hit] []
    (fun h hmem => absurd hmem (List.not_mem_nil h))

/-! ### C3 -/

theorem insertDataDB_idempotent (store : Store) (df_sessions : List SessionRow)
    (df_hits : List HitRow) :
    insertDataDB (insertDataDB store df_sessions df_hits) df_sessions df_hits =
      insertDataDB store df_sessions df_hits := by
  have hhits : ∀ sid ∈ df_hits.map (·.session_id),
      sid ∈ sessionIds (insertDataDB store df_sessions df_hits) :=
    fun sid hsid => sessionIds_insertDataDB_of_hit hsid
  have hsess : ∀ r ∈ df_sessions,
      r.session_id ∈ sessionIds (insertDataDB store df_sessions df_hits) := by
    intro r hr
    rw [insertDataDB_eq]
    unfold sessionIds
    rw [sessions_upsertHits]
    exact sessionIds_insertSessionsIfAbsent_mono _ (mem_sessionIds_insertSessionsIfAbsent hr)
  rw [insertDataDB_eq (insertDataDB store df_sessions df_hits) df_sessions df_hits]
  rw [insertSessionsIfAbsent_eq_self hsess]
  have hmissing :
      missingSessionIds (sessionIds (insertDataDB store df_sessions df_hits)) df_hits = [] := by
    unfold missingSessionIds
    rw [List.filter_eq_nil_iff]
    intro a ha
    have hmem : a ∈ df_hits.map (·.session_id) := ((mem_dedupStringsAux [] _).mp ha).1
    simp [hhits a hmem]
  rw [hmissing, List.map_nil]
  rw [show ∀ t : Store, insertSessionsIfAbsent t [] = t from fun t => rfl]
  conv_rhs => rw [insertDataDB_eq]
  rw [insertDataDB_eq store df_sessions df_hits]
  exact upsertHits_idem _ _ (nodup_keys_dedupHitsFirst df_hits)

/-- C3 (confirmed).  Idempotence of the snapshot load: if a run of
`insert_data` on some input completes with resulting store `s1`, running
`insert_data` again on the same input completes and leaves the store at
exactly `s1`. -/
theorem insert_data_idempotent (inp : SnapshotInput) (store0 s1 : Store)
    (h : insert_data inp store0 = .ok s1) : insert_data inp s1 = .ok s1 := by
  cases inp with
  | missingFile => cases h
  | frames df_sessions df_hits =>
    rw [insert_data] at h ⊢
    simp only [loadDataResult, Except.ok.injEq] at h ⊢
    rw [← h]
    exact insertDataDB_idempotent store0 df_sessions df_hits

/-- Witness for C3 at a concrete input: loading the frames
`([c3session], [c3hit])` into the empty store yields the store holding
exactly that session and hit, and re-running on that store is a no-op. -/
theorem insert_data_idempotent_witness :
    insert_data (SnapshotInput.frames [c3session] [c3hit]) ⟨[c3session], [c3hit]⟩ =
      .ok ⟨[c3session], [c3hit]⟩ :=
  insert_data_idempotent (SnapshotInput.frames [c3session] [c3hit]) ⟨[], []⟩
    ⟨[c3session], [c3hit]⟩ rfl

/-! ### C9 -/

/-- C9 (code bug).  When the snapshot input file is absent, `load_data`
logs the error and falls through to a bare `return`, producing `None`;
`insert_data` then immediately raises `TypeError` while unpacking
`df_sessions, df_hits = load_data()`, before any store connection is
opened.  The claim (and the declared return type of `load_data`,
`tuple[DataFrame, DataFrame]`) promise a normal return instead: the
store is indeed never mutated, but the exception does propagate. -/
theorem missing_snapshot_file_raises (store : Store) :
    insert_data SnapshotInput.missingFile store = .error () := rfl

/-! ### C2 -/

theorem countP_beq_eq_one_of_nodup {l : List String} {a : String}
    (hnd : l.Nodup) (hmem : a ∈ l) : l.countP (fun x => x == a) = 1 := by
  induction l with
  | nil => cases hmem
  | cons b t ih =>
    rw [List.nodup_cons] at hnd
    rcases List.mem_cons.mp hmem with h1 | h1
    · subst h1
      have hzero : t.countP (fun x => x == a) = 0 :=
        List.countP_eq_zero.mpr fun x hx hbeq => hnd.1 ((beq_iff_eq.mp hbeq) ▸ hx)
      rw [List.countP_cons_of_pos _ _ (by simp), hzero]
    · have hne : ¬(b == a) = true :=
        fun hbeq => hnd.1 ((beq_iff_eq.mp hbeq).symm ▸ h1)
      rw [List.countP_cons_of_neg (fun x => x == a) t hne]
      exact ih hnd.2 h1

/-- C2 (confirmed).  Gap synthesis correctness: with `store1` the store
after the batch Sessions commit, `missing` the set of session ids
referenced by the surviving hit batch but absent from the freshly queried
session set of `store1`, and `placeholders` the synthesized rows, (a) the
missing set is exactly the referenced-but-absent ids, (b) exactly one
placeholder is synthesized per missing id, and (c) every placeholder has
`utm_source`, `utm_medium` and all device fields `"unknown"`,
`visit_number = 1`, and `visit_date` equal to the minimum `hit_date` over
the hits of that session in the batch (it is the date of one of those
hits and is `≤` the date of each of them). -/
theorem gap_synthesis_correct (store : Store) (df_sessions : List SessionRow)
    (df_hits : List HitRow) (store1 : Store) (missing : List String)
    (placeholders : List SessionRow)
    (hstore1 : store1 = insertSessionsIfAbsent store df_sessions)
    (hmissing : missing = missingSessionIds (sessionIds store1) df_hits)
    (hplaceholders : placeholders = missing.map (mkPlaceholder df_hits)) :
    (∀ sid, sid ∈ missing ↔
        (∃ h ∈ df_hits, h.session_id = sid) ∧ sid ∉ sessionIds store1) ∧
      (∀ sid ∈ missing, placeholders.countP (fun p => p.session_id == sid) = 1) ∧
      (∀ p ∈ placeholders,
        p.utm_source = "unknown" ∧ p.utm_medium = "unknown" ∧
          p.visit_number = 1 ∧ p.device_os = "unknown" ∧
          p.device_brand = "unknown" ∧ p.device_model = "unknown" ∧
          (∃ h ∈ df_hits, h.session_id = p.session_id ∧ h.hit_date = p.visit_date) ∧
          ∀ h ∈ df_hits, h.session_id = p.session_id →
            Date.le p.visit_date h.hit_date = true) := by
  subst hstore1
  subst hmissing
  subst hplaceholders
  refine ⟨?_, ?_, ?_⟩
  · intro sid
    rw [mem_missingSessionIds, List.mem_map]
  · intro sid hsid
    rw [List.countP_map]
    have hcomp : ((fun p : SessionRow => p.session_id == sid) ∘ mkPlaceholder df_hits) =
        fun x => x == sid := rfl
    rw [hcomp]
    have hnd : (missingSessionIds
        (sessionIds (insertSessionsIfAbsent store df_sessions)) df_hits).Nodup :=
      List.Nodup.filter _ (nodup_dedupStringsAux [] _)
    exact countP_beq_eq_one_of_nodup hnd hsid
  · intro p hp
    obtain ⟨sid, hsidmem, hpeq⟩ := List.mem_map.mp hp
    have hex : ∃ h0 ∈ df_hits, h0.session_id = sid := by
      have hin := (mem_missingSessionIds.mp hsidmem).1
      obtain ⟨h0, hh0, hid⟩ := List.mem_map.mp hin
      exact ⟨h0, hh0, hid⟩
    obtain ⟨m, hm⟩ := minHitDate_eq_some hex
    obtain ⟨⟨h0, hh0, hh0sid, hh0date⟩, hmin⟩ := minHitDate_spec hm
    subst hpeq
    have hvd : (mkPlaceholder df_hits sid).visit_date = m := by
      unfold mkPlaceholder
      rw [hm]
      rfl
    refine ⟨rfl, rfl, rfl, rfl, rfl, rfl, ⟨h0, hh0, ?_, ?_⟩, ?_⟩
    · exact hh0sid
    · rw [hvd, hh0date]
    · intro h hh hsid2
      rw [hvd]
      exact hmin h hh hsid2

/-- Witness for C2: the example given in the specification.  A hit batch
references session `"s1"` with `hit_date` values 2024-01-05 and
2024-01-03; neither store nor batch contains session `"s1"`; exactly one
placeholder is synthesized, with `visit_date = 2024-01-03` (the minimum),
`visit_number = 1`, and all other fields `"unknown"`. -/
theorem gap_synthesis_correct_witness :
    (∀ sid, sid ∈ ["s1"] ↔
        (∃ h ∈ [gapHit1, gapHit2], h.session_id = sid) ∧
          sid ∉ sessionIds ⟨[], []⟩) ∧
      (∀ sid ∈ ["s1"],
        ([({ session_id := "s1", utm_source := "unknown", utm_medium := "unknown",
             visit_date := ⟨2024, 1, 3⟩, visit_number := 1, device_os := "unknown",
             device_brand := "unknown", device_model := "unknown" } : SessionRow)]).countP
            (fun p => p.session_id == sid) = 1) ∧
      (∀ p ∈ [({ session_id := "s1", utm_source := "unknown", utm_medium := "unknown",
                 visit_date := ⟨2024, 1, 3⟩, visit_number := 1, device_os := "unknown",
                 device_brand := "unknown", device_model := "unknown" } : SessionRow)],
        p.utm_source = "unknown" ∧ p.utm_medium = "unknown" ∧
          p.visit_number = 1 ∧ p.device_os = "unknown" ∧
          p.device_brand = "unknown" ∧ p.device_model = "unknown" ∧
          (∃ h ∈ [gapHit1, gapHit2], h.session_id = p.session_id ∧
            h.hit_date = p.visit_date) ∧
          ∀ h ∈ [gapHit1, gapHit2], h.session_id = p.session_id →
            Date.le p.visit_date h.hit_date = true) :=
  gap_synthesis_correct ⟨[], []⟩ [] [gapHit1, gapHit2] ⟨[], []⟩ ["s1"]
    [{ session_id := "s1", utm_source := "unknown", utm_medium := "unknown",
       visit_date := ⟨2024, 1, 3⟩, visit_number := 1, device_os := "unknown",
       device_brand := "unknown", device_model := "unknown" }]
    rfl rfl rfl

/-! ### C4 -/

/-- C4 counterexample.  The snapshot pipeline does NOT treat a
primary-key conflict on a Hit row as a no-op: loading the batch hit
`c4incomingHit` (same key as the stored `c4storedHit`, label `"new"`)
overwrites the `hit_date` and `event_label` of the stored row, because the
hits insert of `insert_data` uses `ON CONFLICT ... DO UPDATE`
(`data_pipeline.py`, lines 245-252), not `DO NOTHING`. -/
theorem snapshot_hit_conflict_overwrites :
    insertDataDB ⟨[c4session], [c4storedHit]⟩ [] [c4incomingHit] =
        ⟨[c4session], [c4incomingHit]⟩ ∧
      c4storedHit.event_label = "old" ∧ c4incomingHit.event_label = "new" :=
  ⟨rfl, rfl, rfl⟩

/-- C4 (corrected) amended claim: in the snapshot pipeline, Session rows
(batch and synthesized) are loaded with insert-if-absent semantics — the
stored session rows survive any run unmodified, as a prefix of the result
— while Hit rows are loaded with insert-or-overwrite semantics: on a
(`session_id`, `hit_number`) conflict the `hit_date` and
`event_label` of the stored row are overwritten with the incoming values. -/
theorem snapshot_conflict_policy (store : Store) (df_sessions : List SessionRow)
    (df_hits : List HitRow) (h : HitRow) :
    (∃ tail, (insertDataDB store df_sessions df_hits).sessions = store.sessions ++ tail) ∧
      ((∃ x ∈ store.hits, sameHitKey x h = true) →
        (upsertHit store h).hits = store.hits.map (fun x =>
          if sameHitKey x h then
            { x with hit_date := h.hit_date, event_label := h.event_label }
          else x)) := by
  constructor
  · rw [insertDataDB_eq, sessions_upsertHits]
    obtain ⟨t1, ht1⟩ := sessions_insertSessionsIfAbsent_append store df_sessions
    obtain ⟨t2, ht2⟩ := sessions_insertSessionsIfAbsent_append
      (insertSessionsIfAbsent store df_sessions)
      ((missingSessionIds (sessionIds (insertSessionsIfAbsent store df_sessions))
          df_hits).map (mkPlaceholder df_hits))
    exact ⟨t1 ++ t2, by rw [ht2, ht1, List.append_assoc]⟩
  · intro hex
    unfold upsertHit
    rw [if_pos (List.any_eq_true.mpr hex)]

/-- Witness for the amended C4 at a concrete input. -/
theorem snapshot_conflict_policy_witness :
    (∃ tail, (insertDataDB ⟨[c4session], [c4storedHit]⟩ [] [c4incomingHit]).sessions =
        [c4session] ++ tail) ∧
      (upsertHit ⟨[c4session], [c4storedHit]⟩ c4incomingHit).hits =
        [c4storedHit].map (fun x =>
          if sameHitKey x c4incomingHit then
            { x with hit_date := c4incomingHit.hit_date,
                     event_label := c4incomingHit.event_label }
          else x) :=
  ⟨(snapshot_conflict_policy ⟨[c4session], [c4storedHit]⟩ [] [c4incomingHit]
      c4incomingHit).1,
   (snapshot_conflict_policy ⟨[c4session], [c4storedHit]⟩ [] [c4incomingHit]
      c4incomingHit).2 ⟨c4storedHit, List.mem_cons_self c4storedHit [], rfl⟩⟩

/-! ### C5 -/

/-- C5 counterexample.  On a batch holding two hits with the same
(`session_id`, `hit_number`) key but labels `"a"` (first) and `"b"`
(second), the store ends with exactly one row for the key and its
`event_label` is `"a"`: `drop_duplicates(subset=...)` keeps the FIRST
occurrence (the pandas default `keep=first`), so the later-processed
duplicate is discarded before the load, contradicting last-seen wins. -/
theorem duplicate_collapse_last_seen_fails :
    (insertDataDB ⟨[c5session], []⟩ [] [c5hitA, c5hitB]).hits = [c5hitA] ∧
      c5hitA.event_label = "a" ∧ c5hitB.event_label = "b" :=
  ⟨rfl, rfl, rfl⟩

/-- C5 (corrected) amended claim: for a batch containing two Hit records
with identical (`session_id`, `hit_number`) but different `event_label`,
exactly one row for that key ends up in the store, and its `hit_date` and
`event_label` are those of the EARLIER-processed (first-seen) duplicate:
key-based deduplication keeps the first occurrence before the load. -/
theorem duplicate_collapse_first_wins (store : Store) (df_sessions : List SessionRow)
    (h1 h2 : HitRow) (hkey : sameHitKey h2 h1 = true)
    (hfresh : ∀ x ∈ store.hits, sameHitKey x h1 = false) :
    ((insertDataDB store df_sessions [h1, h2]).hits.countP
        (fun x => sameHitKey x h1) = 1) ∧
      ∀ x ∈ (insertDataDB store df_sessions [h1, h2]).hits, sameHitKey x h1 = true →
        x.hit_date = h1.hit_date ∧ x.event_label = h1.event_label := by
  have hk := sameHitKey_iff.mp hkey
  simp only [hitKey] at hk
  have hdedup : dedupHitsFirst [h1, h2] = [h1] := by
    simp [dedupHitsFirst, dedupHitsAux, hk]
  have hs2hits : (insertSessionsIfAbsent (insertSessionsIfAbsent store df_sessions)
      ((missingSessionIds (sessionIds (insertSessionsIfAbsent store df_sessions))
          [h1, h2]).map (mkPlaceholder [h1, h2]))).hits = store.hits := by
    rw [hits_insertSessionsIfAbsent, hits_insertSessionsIfAbsent]
  have hany : ¬((insertSessionsIfAbsent (insertSessionsIfAbsent store df_sessions)
      ((missingSessionIds (sessionIds (insertSessionsIfAbsent store df_sessions))
          [h1, h2]).map (mkPlaceholder [h1, h2]))).hits.any
        (fun x => sameHitKey x h1)) = true := by
    rw [hs2hits]
    intro hc
    obtain ⟨x, hx, hxk⟩ := List.any_eq_true.mp hc
    rw [hfresh x hx] at hxk
    exact Bool.false_ne_true hxk
  have hres : (insertDataDB store df_sessions [h1, h2]).hits = store.hits ++ [h1] := by
    rw [insertDataDB_eq, hdedup]
    show (upsertHit _ h1).hits = store.hits ++ [h1]
    unfold upsertHit
    rw [if_neg hany, hs2hits]
  rw [hres]
  constructor
  · rw [List.countP_append]
    rw [List.countP_eq_zero.mpr fun x hx hc => Bool.false_ne_true ((hfresh x hx) ▸ hc)]
    rw [List.countP_cons_of_pos (fun x => sameHitKey x h1) [] (sameHitKey_self h1)]
    rfl
  · intro x hx hxk
    rcases List.mem_append.mp hx with hmem | hmem
    · exact absurd hxk (by rw [hfresh x hmem]; exact Bool.false_ne_true)
    · rw [List.mem_singleton.mp hmem]
      exact ⟨rfl, rfl⟩

/-- Witness for the amended C5 at a concrete input: the batch
`[c5hitA, c5hitB]` (labels `"a"` then `"b"`, identical key) against a
store with no hit of that key. -/
theorem duplicate_collapse_first_wins_witness :
    ((insertDataDB ⟨[c5session], []⟩ [] [c5hitA, c5hitB]).hits.countP
        (fun x => sameHitKey x c5hitA) = 1) ∧
      ∀ x ∈ (insertDataDB ⟨[c5session], []⟩ [] [c5hitA, c5hitB]).hits,
        sameHitKey x c5hitA = true →
          x.hit_date = c5hitA.hit_date ∧ x.event_label = c5hitA.event_label :=
  duplicate_collapse_first_wins ⟨[c5session], []⟩ [] c5hitA c5hitB rfl
    (fun x hx => absurd hx (List.not_mem_nil x))

/-! ### C6 -/

theorem remove_outliers_eq {α : Type} (df : List α) (column : α → ℚ) :
    remove_outliers df column = df.filter (fun r =>
      decide (quantile (df.map column) (1 / 4) -
          3 / 2 * (quantile (df.map column) (3 / 4) - quantile (df.map column) (1 / 4)) ≤
        column r) &&
      decide (column r ≤ quantile (df.map column) (3 / 4) +
          3 / 2 * (quantile (df.map column) (3 / 4) - quantile (df.map column) (1 / 4)))) :=
  rfl

/-- C6 (confirmed).  The IQR outlier filter keeps exactly the rows whose
column value lies in the closed interval from `Q1 - 1.5 * IQR` to
`Q3 + 1.5 * IQR`, where `Q1` and `Q3` are the 0.25- and 0.75-quantiles of
the column over the current batch and `IQR = Q3 - Q1`: membership in the
result is equivalent to membership in the batch plus the two bounds, and
the multiplicity of each row value is fully preserved when in bounds and zero
when out of bounds. -/
theorem remove_outliers_iqr {α : Type} [DecidableEq α] (df : List α) (column : α → ℚ)
    (r : α) :
    (r ∈ remove_outliers df column ↔
      r ∈ df ∧
        quantile (df.map column) (1 / 4) -
            3 / 2 * (quantile (df.map column) (3 / 4) - quantile (df.map column) (1 / 4)) ≤
          column r ∧
        column r ≤ quantile (df.map column) (3 / 4) +
            3 / 2 * (quantile (df.map column) (3 / 4) - quantile (df.map column) (1 / 4))) ∧
      (remove_outliers df column).count r =
        (if quantile (df.map column) (1 / 4) -
              3 / 2 * (quantile (df.map column) (3 / 4) - quantile (df.map column) (1 / 4)) ≤
            column r ∧
          column r ≤ quantile (df.map column) (3 / 4) +
              3 / 2 * (quantile (df.map column) (3 / 4) - quantile (df.map column) (1 / 4))
         then df.count r else 0) := by
  rw [remove_outliers_eq]
  constructor
  · rw [List.mem_filter]
    simp [and_assoc]
  · by_cases hp : quantile (df.map column) (1 / 4) -
          3 / 2 * (quantile (df.map column) (3 / 4) - quantile (df.map column) (1 / 4)) ≤
        column r ∧
      column r ≤ quantile (df.map column) (3 / 4) +
          3 / 2 * (quantile (df.map column) (3 / 4) - quantile (df.map column) (1 / 4))
    · rw [if_pos hp]
      refine List.count_filter ?_
      rw [decide_eq_true hp.1, decide_eq_true hp.2]
      rfl
    · rw [if_neg hp]
      rw [List.count_eq_zero]
      intro hc
      obtain ⟨-, hbo⟩ := List.mem_filter.mp hc
      simp only [Bool.and_eq_true, decide_eq_true_eq] at hbo
      exact hp hbo

/-! ### C7 -/

theorem coerceDate_isSome_iff (rd : RawDate) :
    (coerceDate rd).isSome = true ↔ rd ≠ RawDate.malformed := by
  cases rd <;> simp [coerceDate]

/-- C7 counterexample.  In the incremental (JSON) ingestion path, a
record whose date cannot be parsed is NOT dropped with processing
continuing: `process_sessions_data` calls `datetime.strptime` with no
per-record handler, so the `ValueError` propagates and the whole batch
(including the preceding well-formed record) is abandoned. -/
theorem json_bad_date_aborts_batch :
    process_sessions_data [[c7goodSession, c7badSession]] = .error () := rfl

/-- C7 (corrected) amended claim: the two ingestion paths handle bad
dates differently.  In the snapshot path, date parsing failures are
coerced and the offending rows are dropped while all other rows survive
(no exception).  In the incremental JSON path, an unparseable
`visit_date` raises, aborting processing of the whole batch; the
exception is only caught by the top-level handler of the orchestrator. -/
theorem per_row_date_error_handling :
    (∀ {α : Type} (rows : List α) (dateField : α → RawDate) (r : α),
        r ∈ dropBadDates rows dateField ↔ r ∈ rows ∧ dateField r ≠ RawDate.malformed) ∧
      ∀ data : List (List RawSession),
        (∃ g ∈ data, ∃ s ∈ g, s.visit_date = RawDate.malformed) →
          process_sessions_data data = .error () := by
  constructor
  · intro α rows dateField r
    unfold dropBadDates
    rw [List.mem_filter, coerceDate_isSome_iff]
  · intro data hex
    obtain ⟨g, hg, s, hs, hmal⟩ := hex
    have hflat : ∃ s0 ∈ data.flatten, s0.visit_date = RawDate.malformed :=
      ⟨s, List.mem_flatten.mpr ⟨g, hg, hs⟩, hmal⟩
    unfold process_sessions_data
    rw [processSessionRecords_error_of_malformed hflat]
    rfl

/-- Witness for the amended C7 at concrete inputs. -/
theorem per_row_date_error_handling_witness :
    (c7badSession ∈ dropBadDates [c7goodSession, c7badSession] (fun s => s.visit_date) ↔
      c7badSession ∈ [c7goodSession, c7badSession] ∧
        c7badSession.visit_date ≠ RawDate.malformed) ∧
      process_sessions_data [[c7badSession]] = .error () :=
  ⟨per_row_date_error_handling.1 [c7goodSession, c7badSession]
      (fun s => s.visit_date) c7badSession,
   per_row_date_error_handling.2 [[c7badSession]]
     ⟨[c7badSession], List.mem_cons_self _ _, c7badSession, List.mem_cons_self _ _, rfl⟩⟩

/-! ### C8 -/

/-- C8 counterexample.  An incremental run over one hits file whose only
hit references session `"sx"`, absent from both the store and the batch,
ends with NO session `"sx"` synthesized and the hit discarded: the
resulting store is still empty.  The incremental orchestrator has no gap
reconciliation; it filters hits to stored sessions and drops the rest. -/
theorem incremental_orphan_discarded :
    (process_and_load_json_data ⟨[], []⟩ [JsonFile.hitsFile [[c8orphanHit]]]).sessions = [] ∧
      (process_and_load_json_data ⟨[], []⟩ [JsonFile.hitsFile [[c8orphanHit]]]).hits = [] :=
  ⟨rfl, rfl⟩

/-- C8 (corrected) amended claim: processing a hits file in the
incremental orchestrator never creates session rows — the session table
is returned unchanged — and the hits it loads are only those whose
`session_id` is already present in the store, so referential completeness
is preserved; orphaned hits are discarded, not backed by synthesized
placeholder Sessions. -/
theorem incremental_hits_filtered_not_synthesized (store : Store)
    (data : List (List RawHit)) (s1 : Store)
    (hok : processJsonFile store (JsonFile.hitsFile data) = .ok s1) :
    s1.sessions = store.sessions ∧ (refComplete store → refComplete s1) := by
  rw [processJsonFile] at hok
  cases hpr : process_hits_data data (sessionIds store) with
  | error e =>
    rw [hpr] at hok
    simp [Bind.bind, Except.bind] at hok
  | ok hd =>
    rw [hpr] at hok
    simp only [Bind.bind, Except.bind, pure, Except.pure, Except.ok.injEq] at hok
    rw [← hok]
    exact ⟨sessions_upsertHits store hd,
      fun hrc => refComplete_upsertHits_valid hrc (processHitRecords_ok_valid hpr)⟩

/-- Witness for the amended C8 at a concrete input: a hits file whose hit
matches the stored session `c8session`. -/
theorem incremental_hits_filtered_witness :
    (⟨[c8session], [⟨"sg", ⟨2024, 7, 2⟩, 2, "view"⟩]⟩ : Store).sessions = [c8session] ∧
      (refComplete ⟨[c8session], []⟩ →
        refComplete ⟨[c8session], [⟨"sg", ⟨2024, 7, 2⟩, 2, "view"⟩]⟩) :=
  incremental_hits_filtered_not_synthesized ⟨[c8session], []⟩ [[c8matchedHit]] _ rfl

/-! ### C10 -/

/-- C10 (confirmed).  On a well-formed input mapping (the `visit_date`
of every record parses), `process_sessions_data` returns `(rows, ids)` where
`ids` holds exactly the `session_id` values occurring in `rows`, every
input record contributes exactly one tuple (the lengths agree), and no
tuple has `device_brand` or `device_model` equal to the literal `"NaN"` (both are
plain strings by construction, never `None`: missing or null values are
replaced by `"unknown"`). -/
theorem process_sessions_data_spec (data : List (List RawSession))
    (hwf : ∀ g ∈ data, ∀ s ∈ g, s.visit_date ≠ RawDate.malformed) :
    ∃ rows ids, process_sessions_data data = .ok (rows, ids) ∧
      rows.length = data.flatten.length ∧
      (∀ sid, sid ∈ ids ↔ ∃ r ∈ rows, r.session_id = sid) ∧
      ∀ r ∈ rows, r.device_brand ≠ "NaN" ∧ r.device_model ≠ "NaN" := by
  have hwf2 : ∀ s ∈ data.flatten, s.visit_date ≠ RawDate.malformed := by
    intro s hs
    obtain ⟨g, hg, hsg⟩ := List.mem_flatten.mp hs
    exact hwf g hg s hsg
  obtain ⟨rows, hrows, hlen, hids, hnan⟩ := processSessionRecords_ok_spec hwf2
  refine ⟨rows, sessionIdSet rows, ?_, hlen, ?_, hnan⟩
  · unfold process_sessions_data
    rw [hrows]
    rfl
  · intro sid
    unfold sessionIdSet
    rw [mem_dedupStringsAux, List.mem_map]
    simp

/-- Witness for C10 at a concrete well-formed record (whose raw
`device_brand` is the literal `"NaN"`, exercising the replacement). -/
theorem process_sessions_data_spec_witness :
    ∃ rows ids, process_sessions_data [[c10record]] = .ok (rows, ids) ∧
      rows.length = ([[c10record]] : List (List RawSession)).flatten.length ∧
      (∀ sid, sid ∈ ids ↔ ∃ r ∈ rows, r.session_id = sid) ∧
      ∀ r ∈ rows, r.device_brand ≠ "NaN" ∧ r.device_model ≠ "NaN" :=
  process_sessions_data_spec [[c10record]] (by decide)

end Sberauto
